import Mathlib

/-!
Shallow embedding of the task-queue system: the job data model, the rate
gate (Redis sliding window), the submission service and HTTP submit route,
the worker runtime (lease / acknowledge / retry / dead-letter), and the
metrics projection, together with theorems settling the specification
claims about them.
-/

namespace TaskQueue

/-- Job status enumeration, mirroring the Prisma enum
pending | running | completed | failed. -/
inductive JobStatus where
  | pending
  | running
  | completed
  | failed
deriving DecidableEq, Repr

/-- A JSON value, as carried in the job payload (JSONB column). Composite
values (arrays, objects) are represented by their serialized text, since the
queue treats payloads as opaque and only the top-level JavaScript truthiness
of the value is ever inspected. -/
inductive JsonVal where
  | jnull
  | jbool (b : Bool)
  | jnum (n : Int)
  | jstr (s : String)
  | jcomposite (serialized : String)
deriving DecidableEq, Repr

/-- JavaScript truthiness of a JSON value: null, false, 0 and the empty
string are falsy; arrays and objects are always truthy. -/
def JsonVal.truthy : JsonVal → Bool
  | .jnull => false
  | .jbool b => b
  | .jnum n => n != 0
  | .jstr s => s != ""
  | .jcomposite _ => true

/-- A row of the jobs table. Timestamps are milliseconds since the epoch. -/
structure Job where
  id : String
  tenantId : String
  status : JobStatus
  payload : JsonVal
  idempotencyKey : Option String
  retryCount : Nat
  maxRetries : Nat
  leaseExpiresAt : Option Nat
  workerId : Option String
  createdAt : Nat
  startedAt : Option Nat
  completedAt : Option Nat
  errorMessage : Option String
  traceId : String
deriving DecidableEq, Repr

/-- A row of the dlq (dead-letter) table. -/
structure DLQEntry where
  id : String
  jobId : String
  payload : JsonVal
  finalError : String
  failedAt : Nat
  traceId : String
deriving DecidableEq, Repr

/-- The durable store: the jobs table and the dead-letter table. -/
structure Store where
  jobs : List Job
  dlq : List DLQEntry
deriving DecidableEq, Repr

/-! ## Rate gate (RateLimiter, src/services/rateLimiter.ts)

The Redis sorted set behind the key rate:tenant is modelled as a list of
(score, member) pairs together with the key's remaining time-to-live. -/

/-- The state of one tenant's rate key in the keyed counter store. -/
structure RateKey where
  entries : List (Nat × String)
  ttl : Option Nat
deriving DecidableEq, Repr

/-- Redis ZREMRANGEBYSCORE key 0 maxScore: removes every member whose score
lies in the inclusive range from 0 to maxScore. Stored scores are
timestamps, hence non-negative, so a member survives exactly when its score
exceeds maxScore. -/
def zRemRangeByScore (entries : List (Nat × String)) (maxScore : Int) :
    List (Nat × String) :=
  entries.filter (fun e => decide (maxScore < (e.1 : Int)))

/-- Redis ZADD: insert the member with the given score, or update its score
when the member is already present. -/
def zAdd (entries : List (Nat × String)) (score : Nat) (value : String) :
    List (Nat × String) :=
  if entries.any (fun e => e.2 == value) then
    entries.map (fun e => if e.2 == value then (score, value) else e)
  else
    entries ++ [(score, value)]

/-- The member string added for one admission: the timestamp combined with a
random suffix so concurrent submissions in the same millisecond do not
collide. The suffix is passed in as a parameter. -/
def rateMember (now : Nat) (rand : String) : String :=
  toString now ++ "-" ++ rand

/-- RateLimiter.checkRateLimit, the Redis path: evict entries whose score
falls in the removal range up to now - 60000 inclusive, deny when at least
10 remain, otherwise add one member scored now, refresh the TTL to 60
seconds, and allow. -/
def checkRateLimit (k : RateKey) (now : Nat) (rand : String) :
    Bool × RateKey :=
  let entries := zRemRangeByScore k.entries ((now : Int) - 60000)
  if 10 ≤ entries.length then
    (false, { entries := entries, ttl := k.ttl })
  else
    (true, { entries := zAdd entries now (rateMember now rand), ttl := some 60 })

/-- RateLimiter.checkRateLimit including its catch branch: when the keyed
store errors (redisOk = false) the gate fails open and returns allow. -/
def checkRateLimitSafe (redisOk : Bool) (k : RateKey) (now : Nat)
    (rand : String) : Bool × RateKey :=
  if redisOk then checkRateLimit k now rand else (true, k)

/-- RateLimiter.checkConcurrentLimit: deny exactly when the running count
has reached the limit of 5. -/
def checkConcurrentLimit (runningCount : Nat) : Bool :=
  if 5 ≤ runningCount then false else true

/-! ## Submission service (JobService, src/services/jobService.ts) -/

/-- The findUnique lookup on the unique idempotency-key index. -/
def findByIdempotencyKey (jobs : List Job) (key : String) : Option Job :=
  jobs.find? (fun j => j.idempotencyKey == some key)

/-- The row inserted by prisma.job.create for a submission: explicit fields
as passed by JobService.submitJob, the remaining columns from the schema
defaults (status pending is also passed explicitly; retry_count defaults to
0, max_retries to 3, created_at to the current time, nullable columns to
null). -/
def newJob (tenantId : String) (payload : JsonVal)
    (idempotencyKey : Option String) (id traceId : String) (now : Nat) :
    Job :=
  { id := id
    tenantId := tenantId
    status := .pending
    payload := payload
    idempotencyKey := idempotencyKey
    retryCount := 0
    maxRetries := 3
    leaseExpiresAt := none
    workerId := none
    createdAt := now
    startedAt := none
    completedAt := none
    errorMessage := none
    traceId := traceId }

/-- JobService.submitJob: when an idempotency key is supplied and a job
with that key exists, return it and leave the store unchanged; otherwise
insert a fresh pending job. The fresh row id and trace id are passed in as
parameters (uuid v4 in the source). -/
def dupLookup (jobs : List Job) : Option String → Option Job
  | some key => findByIdempotencyKey jobs key
  | none => none

def submitJob (st : Store) (tenantId : String) (payload : JsonVal)
    (idempotencyKey : Option String) (id traceId : String) (now : Nat) :
    Job × Store :=
  match dupLookup st.jobs idempotencyKey with
  | some existing => (existing, st)
  | none =>
      let j := newJob tenantId payload idempotencyKey id traceId now
      (j, { st with jobs := st.jobs ++ [j] })

/-- JobService.getRunningJobCount: count of running rows for the tenant. -/
def getRunningJobCount (st : Store) (tenantId : String) : Nat :=
  (st.jobs.filter (fun j => j.tenantId == tenantId && j.status == .running)).length

/-! ## Worker runtime (WorkerService, src/services/workerService.ts) -/

/-- The lease query predicate: status pending, or status running with an
expired lease (lease_expires_at strictly before now; a null
lease_expires_at does not match the lt filter). -/
def leaseEligible (now : Nat) (j : Job) : Bool :=
  j.status == .pending ||
    (j.status == .running &&
      (match j.leaseExpiresAt with
       | some t => decide (t < now)
       | none => false))

/-- One comparison step of the createdAt-ascending scan: keep the earlier
of the candidate so far and the next row, preferring the row seen first on
a tie. -/
def minCreatedStep (acc : Option Job) (j : Job) : Option Job :=
  match acc with
  | none => some j
  | some b => if j.createdAt < b.createdAt then some j else some b

/-- findFirst with orderBy createdAt ascending: the first row, in table
order, among those with the smallest createdAt. -/
def findFirstByCreatedAt (jobs : List Job) : Option Job :=
  jobs.foldl minCreatedStep none

/-- Update every row carrying the given id (the primary key, so at most one
row in a well-formed store). -/
def updateById (jobs : List Job) (i : String) (f : Job → Job) : List Job :=
  jobs.map (fun x => if x.id == i then f x else x)

/-- The lease update applied to the claimed row: status running, the
acquiring worker, a lease expiring 5 minutes from now, and started_at
computed from the selected row's snapshot: now when the snapshot's status
was pending, otherwise the snapshot's started_at. -/
def leaseTransform (sel : Job) (now : Nat) (wid : String) (x : Job) : Job :=
  { x with
    status := .running
    workerId := some wid
    leaseExpiresAt := some (now + 5 * 60 * 1000)
    startedAt := if sel.status == .pending then some now else sel.startedAt }

/-- WorkerService.acquireLease: select the FIFO-first job that is pending or
running with an expired lease, apply the lease update to it, and return the
updated row; return none and leave the store unchanged when no job is
eligible. -/
def acquireLease (st : Store) (now : Nat) (wid : String) :
    Option Job × Store :=
  match findFirstByCreatedAt (st.jobs.filter (leaseEligible now)) with
  | none => (none, st)
  | some sel =>
      (some (leaseTransform sel now wid sel),
       { st with jobs := updateById st.jobs sel.id (leaseTransform sel now wid) })

/-- WorkerService.acknowledgeJob: set status completed and completed_at on
the row with the given id. No other column is written. -/
def acknowledgeJob (st : Store) (jobId : String) (now : Nat) : Store :=
  { st with
    jobs := updateById st.jobs jobId
      (fun x => { x with status := .completed, completedAt := some now }) }

/-- The exponential backoff: min(30000 * 2^retryCount, 600000) ms. -/
def backoffMs (retryCount : Nat) : Nat :=
  min (30000 * 2 ^ retryCount) 600000

/-- WorkerService.moveToDeadLetterQueue: in one transaction, insert a
dead-letter entry snapshotting the job's payload, final error and trace id,
and set the job's status to failed with the error message. The dlq row id
is passed in as a parameter. -/
def moveToDeadLetterQueue (st : Store) (j : Job) (errMsg : String)
    (now : Nat) (dlqId : String) : Store :=
  { jobs := updateById st.jobs j.id
      (fun x => { x with status := .failed, errorMessage := some errMsg })
    dlq := st.dlq ++
      [{ id := dlqId
         jobId := j.id
         payload := j.payload
         finalError := errMsg
         failedAt := now
         traceId := j.traceId }] }

/-- WorkerService.retryJob: when the snapshot's retry count has reached
max_retries, move the job to the dead-letter queue; otherwise return it to
pending with an incremented retry count, cleared lease fields, the error
message, and created_at rewritten to now plus the backoff. -/
def retryJob (st : Store) (j : Job) (errMsg : String) (now : Nat)
    (dlqId : String) : Store :=
  if j.maxRetries ≤ j.retryCount then
    moveToDeadLetterQueue st j errMsg now dlqId
  else
    { st with
      jobs := updateById st.jobs j.id
        (fun x =>
          { x with
            status := .pending
            retryCount := j.retryCount + 1
            workerId := none
            leaseExpiresAt := none
            errorMessage := some errMsg
            createdAt := now + backoffMs j.retryCount }) }

/-! ## HTTP submission route (POST /api/v1/jobs, src/api/routes.ts) -/

/-- The parsed request body of POST /api/v1/jobs. A field absent from the
JSON body is none. -/
structure SubmitRequest where
  tenantId : Option String
  payload : Option JsonVal
  idempotencyKey : Option String
deriving DecidableEq, Repr

/-- JavaScript truthiness of the tenantId field: false when the field is
absent or the empty string. -/
def truthyTenant : Option String → Bool
  | some s => s != ""
  | none => false

/-- JavaScript truthiness of the payload field: false when the field is
absent or a falsy JSON value. -/
def truthyPayload : Option JsonVal → Bool
  | some v => v.truthy
  | none => false

/-- The outcome of the POST /api/v1/jobs handler, by HTTP response. -/
inductive SubmitResult where
  | invalidArgument
  | rateLimited
  | concurrencyLimited
  | created (jobId : String) (status : JobStatus) (traceId : String)
deriving DecidableEq, Repr

/-- The POST /api/v1/jobs route handler: validate tenantId and payload by
JavaScript truthiness, then consult the rate gate, then the concurrency
gate, and only then call JobService.submitJob (which performs the
idempotency lookup). Returns the response together with the resulting
store and the resulting state of the tenant's rate key. -/
def handleSubmit (st : Store) (k : RateKey) (req : SubmitRequest)
    (now : Nat) (rand : String) (newId newTraceId : String)
    (redisOk : Bool) : SubmitResult × Store × RateKey :=
  if !(truthyTenant req.tenantId) || !(truthyPayload req.payload) then
    (.invalidArgument, st, k)
  else
    let tid := req.tenantId.getD ""
    let gate := checkRateLimitSafe redisOk k now rand
    if !gate.1 then
      (.rateLimited, st, gate.2)
    else
      let runningCount := getRunningJobCount st tid
      if !(checkConcurrentLimit runningCount) then
        (.concurrencyLimited, st, gate.2)
      else
        let sub := submitJob st tid (req.payload.getD .jnull)
          req.idempotencyKey newId newTraceId now
        (.created sub.1.id sub.1.status sub.1.traceId, sub.2, gate.2)

/-! ## Metrics projection (JobService.getMetrics) -/

/-- The jobs_by_status record; the source initializes all four buckets to 0
before applying the group-by counts. -/
structure StatusCounts where
  pending : Nat
  running : Nat
  completed : Nat
  failed : Nat
deriving DecidableEq, Repr

/-- The record with every bucket at 0. -/
def zeroCounts : StatusCounts :=
  { pending := 0, running := 0, completed := 0, failed := 0 }

/-- Write one group-by row into the record. -/
def setBucket (m : StatusCounts) (s : JobStatus) (n : Nat) : StatusCounts :=
  match s with
  | .pending => { m with pending := n }
  | .running => { m with running := n }
  | .completed => { m with completed := n }
  | .failed => { m with failed := n }

/-- Read one bucket of the record. -/
def getBucket (m : StatusCounts) (s : JobStatus) : Nat :=
  match s with
  | .pending => m.pending
  | .running => m.running
  | .completed => m.completed
  | .failed => m.failed

/-- prisma.job.groupBy by status with _count: one row per status value
occurring among the rows, carrying the number of rows with that status. -/
def groupByStatus (jobs : List Job) : List (JobStatus × Nat) :=
  ((jobs.map Job.status).dedup).map
    (fun s => (s, (jobs.filter (fun j => j.status == s)).length))

/-- The result shape of JobService.getMetrics. -/
structure Metrics where
  jobs_total : Nat
  jobs_by_status : StatusCounts
  dlq_size : Nat
deriving DecidableEq, Repr

/-- JobService.getMetrics: count, group-by and dead-letter count, all
filtered to the tenant when one is given; the dead-letter count joins each
entry to its parent job and filters on the parent's tenant; the group-by
rows are folded into a record whose four buckets start at 0. -/
def getMetrics (st : Store) (tenantId : Option String) : Metrics :=
  let filtered := match tenantId with
    | some t => st.jobs.filter (fun j => j.tenantId == t)
    | none => st.jobs
  let byStatus := groupByStatus filtered
  let dlqCount := match tenantId with
    | some t =>
        (st.dlq.filter (fun e =>
          st.jobs.any (fun j => j.id == e.jobId && j.tenantId == t))).length
    | none => st.dlq.length
  { jobs_total := filtered.length
    jobs_by_status := byStatus.foldl (fun acc g => setBucket acc g.1 g.2) zeroCounts
    dlq_size := dlqCount }

/-! ## System step relation and store invariants

Sequential traces of the core operations. A worker acknowledges or retries
a job it has leased, so the acknowledge and retry steps carry the side
condition that the job snapshot is a running row of the store; the fresh
row id of a submission is new to the table (the primary key constraint). -/

/-- The given id is used by no row of the jobs table. -/
def freshJobId (st : Store) (i : String) : Prop :=
  ∀ j ∈ st.jobs, j.id ≠ i

/-- Primary-key well-formedness: the ids of the jobs table are distinct. -/
def idsNodup (st : Store) : Prop :=
  (st.jobs.map Job.id).Nodup

/-- One operation of the core, as invoked by the submission route and the
worker loop. -/
inductive Step : Store → Store → Prop where
  | submit (st : Store) (tenantId : String) (payload : JsonVal)
      (idempotencyKey : Option String) (id traceId : String) (now : Nat)
      (hfresh : freshJobId st id) :
      Step st (submitJob st tenantId payload idempotencyKey id traceId now).2
  | lease (st : Store) (now : Nat) (wid : String) :
      Step st (acquireLease st now wid).2
  | ack (st : Store) (j : Job) (now : Nat)
      (hmem : j ∈ st.jobs) (hrun : j.status = .running) :
      Step st (acknowledgeJob st j.id now)
  | fail (st : Store) (j : Job) (errMsg : String) (now : Nat) (dlqId : String)
      (hmem : j ∈ st.jobs) (hrun : j.status = .running) :
      Step st (retryJob st j errMsg now dlqId)

/-- The retry budget invariant: no row's retry count exceeds its
max_retries. -/
def retryCountInv (st : Store) : Prop :=
  ∀ j ∈ st.jobs, j.retryCount ≤ j.maxRetries

/-- The dead-letter invariant: every dead-letter entry has a parent job row
with status failed, the same trace id and the payload preserved. -/
def dlqInv (st : Store) : Prop :=
  ∀ e ∈ st.dlq, ∃ j ∈ st.jobs,
    j.id = e.jobId ∧ j.status = .failed ∧
    j.traceId = e.traceId ∧ j.payload = e.payload

/-- The conjunction of the store invariants carried through every step. -/
def storeInv (st : Store) : Prop :=
  idsNodup st ∧ retryCountInv st ∧ dlqInv st

/-! ## The rate gate as the claim words it

For comparison with the source, this variant follows the claim's wording:
eviction removes exactly the entries whose score is strictly older than
now - 60000; all later steps are as in the source. -/

/-- The rate-limit check as described by the claim, with strict eviction:
only entries with score strictly below now - 60000 are removed. -/
def checkRateLimitClaimed (k : RateKey) (now : Nat) (rand : String) :
    Bool × RateKey :=
  let entries := k.entries.filter (fun e => decide ((now : Int) - 60000 ≤ (e.1 : Int)))
  if 10 ≤ entries.length then
    (false, { entries := entries, ttl := k.ttl })
  else
    (true, { entries := zAdd entries now (rateMember now rand), ttl := some 60 })

/-! ## Concrete fixtures used by witness theorems -/

/-- A pending job whose created_at lies in the future (as after a retry
rewrote it). -/
def wPending : Job := newJob "A" (.jstr "x") none "j1" "tr1" 999999

/-- A running job holding a lease that expired at 500. -/
def wRun : Job :=
  { newJob "A" (.jstr "x") none "j1" "tr1" 50 with
    status := .running, workerId := some "w1", leaseExpiresAt := some 500,
    startedAt := some 60 }

/-- The running job with its retry budget exhausted. -/
def wRunMax : Job := { wRun with retryCount := 3 }

/-- A job previously submitted under idempotency key k. -/
def wDup : Job := newJob "t" (.jstr "x") (some "k") "j1" "tr1" 50

/-! ## Helper lemmas -/

/-- Lookup of the row with a given id. -/
def findJob (st : Store) (i : String) : Option Job :=
  st.jobs.find? (fun j => j.id == i)

theorem mem_updateById {jobs : List Job} {i : String} {f : Job → Job} {y : Job}
    (hy : y ∈ updateById jobs i f) :
    ∃ x ∈ jobs, y = if x.id == i then f x else x := by
  rcases List.mem_map.mp hy with ⟨x, hx, hxy⟩
  exact ⟨x, hx, hxy.symm⟩

theorem updateById_map_id {jobs : List Job} {i : String} {f : Job → Job}
    (hid : ∀ x, (f x).id = x.id) :
    (updateById jobs i f).map Job.id = jobs.map Job.id := by
  simp only [updateById, List.map_map]
  refine List.map_congr_left ?_
  intro x _
  by_cases h : x.id = i <;> simp [h, hid]

theorem idsNodup_updateById {jobs : List Job} {i : String} {f : Job → Job}
    (hid : ∀ x, (f x).id = x.id) (hnd : (jobs.map Job.id).Nodup) :
    ((updateById jobs i f).map Job.id).Nodup := by
  rw [updateById_map_id hid]
  exact hnd

theorem mem_updateById_of_ne {jobs : List Job} {i : String} {f : Job → Job} {x : Job}
    (hx : x ∈ jobs) (hne : x.id ≠ i) : x ∈ updateById jobs i f := by
  have : (if x.id == i then f x else x) ∈ updateById jobs i f :=
    List.mem_map_of_mem _ hx
  simpa [hne] using this

theorem mem_updateById_self {jobs : List Job} {f : Job → Job} {x : Job}
    (hx : x ∈ jobs) : f x ∈ updateById jobs x.id f := by
  have : (if x.id == x.id then f x else x) ∈ updateById jobs x.id f :=
    List.mem_map_of_mem _ hx
  simpa using this

theorem nodup_id_inj {jobs : List Job} (hnd : (jobs.map Job.id).Nodup)
    {a b : Job} (ha : a ∈ jobs) (hb : b ∈ jobs) (hid : a.id = b.id) : a = b :=
  List.inj_on_of_nodup_map hnd ha hb hid

theorem updateById_cons {x : Job} {rest : List Job} {i : String} {f : Job → Job} :
    updateById (x :: rest) i f =
      (if x.id == i then f x else x) :: updateById rest i f := rfl

theorem find_updateById {jobs : List Job} {j : Job} {f : Job → Job}
    (hnd : (jobs.map Job.id).Nodup) (hmem : j ∈ jobs)
    (hid : ∀ x, (f x).id = x.id) :
    (updateById jobs j.id f).find? (fun x => x.id == j.id) = some (f j) := by
  induction jobs with
  | nil => cases hmem
  | cons x rest ih =>
      rw [List.map_cons, List.nodup_cons] at hnd
      by_cases hx : x.id = j.id
      · have hxj : x = j := by
          rcases List.mem_cons.mp hmem with h | h
          · exact h.symm
          · exact absurd (hx ▸ List.mem_map_of_mem Job.id h) hnd.1
        subst hxj
        rw [updateById_cons, if_pos (by simp)]
        exact List.find?_cons_of_pos _ (by simp [hid])
      · have hmem' : j ∈ rest := by
          rcases List.mem_cons.mp hmem with h | h
          · exact absurd (h ▸ rfl) hx
          · exact h
        rw [updateById_cons, if_neg (by simp [hx])]
        rw [List.find?_cons_of_neg _ (by simp [hx])]
        exact ih hnd.2 hmem'

theorem minCreatedStep_spec (acc : Option Job) (x : Job) :
    ∃ c, minCreatedStep acc x = some c ∧ c.createdAt ≤ x.createdAt ∧
      (∀ b, acc = some b → c.createdAt ≤ b.createdAt) := by
  cases acc with
  | none => exact ⟨x, rfl, le_refl _, by intro b hb; cases hb⟩
  | some b =>
      by_cases h : x.createdAt < b.createdAt
      · exact ⟨x, by simp [minCreatedStep, h], le_refl _,
          by intro b' hb'; cases hb'; exact le_of_lt h⟩
      · exact ⟨b, by simp [minCreatedStep, h], le_of_not_lt h,
          by intro b' hb'; cases hb'; exact le_refl _⟩

theorem foldl_minCreatedStep_spec (l : List Job) :
    ∀ (acc : Option Job) (j : Job), l.foldl minCreatedStep acc = some j →
      (acc = some j ∨ j ∈ l) ∧
      (∀ b, acc = some b → j.createdAt ≤ b.createdAt) ∧
      (∀ k ∈ l, j.createdAt ≤ k.createdAt) := by
  induction l with
  | nil =>
      intro acc j h
      refine ⟨Or.inl h, ?_, by simp⟩
      intro b hb
      rw [hb] at h
      cases h
      exact le_refl _
  | cons x xs ih =>
      intro acc j h
      rw [List.foldl_cons] at h
      obtain ⟨h1, h2, h3⟩ := ih (minCreatedStep acc x) j h
      obtain ⟨c, hc, hcx, hcb⟩ := minCreatedStep_spec acc x
      have hjc : j.createdAt ≤ c.createdAt := h2 c hc
      refine ⟨?_, ?_, ?_⟩
      · rcases h1 with h1 | h1
        · cases acc with
          | none =>
              cases (by simpa [minCreatedStep] using h1 : x = j)
              exact Or.inr (List.mem_cons_self _ _)
          | some b =>
              simp only [minCreatedStep] at h1
              by_cases hlt : x.createdAt < b.createdAt
              · rw [if_pos hlt] at h1
                cases h1
                exact Or.inr (List.mem_cons_self _ _)
              · rw [if_neg hlt] at h1
                exact Or.inl h1
        · exact Or.inr (List.mem_cons_of_mem _ h1)
      · intro b hb
        exact le_trans hjc (hcb b hb)
      · intro k hk
        rcases List.mem_cons.mp hk with hk | hk
        · subst hk
          exact le_trans hjc hcx
        · exact h3 k hk

theorem findFirstByCreatedAt_spec {l : List Job} {j : Job}
    (h : findFirstByCreatedAt l = some j) :
    j ∈ l ∧ ∀ k ∈ l, j.createdAt ≤ k.createdAt := by
  obtain ⟨h1, _, h3⟩ := foldl_minCreatedStep_spec l none j h
  rcases h1 with h1 | h1
  · cases h1
  · exact ⟨h1, h3⟩

theorem acquireLease_some {st : Store} {now : Nat} {wid : String}
    {j' : Job} {st' : Store}
    (h : acquireLease st now wid = (some j', st')) :
    ∃ sel, findFirstByCreatedAt (st.jobs.filter (leaseEligible now)) = some sel ∧
      j' = leaseTransform sel now wid sel ∧
      st' = ⟨updateById st.jobs sel.id (leaseTransform sel now wid), st.dlq⟩ := by
  rcases hsel : findFirstByCreatedAt (st.jobs.filter (leaseEligible now))
    with _ | sel
  · rw [acquireLease, hsel] at h
    cases h
  · rw [acquireLease, hsel] at h
    simp only [Prod.mk.injEq, Option.some.injEq] at h
    exact ⟨sel, rfl, h.1.symm, h.2.symm⟩

theorem dlqInv_updateById {st : Store} {j : Job} {f : Job → Job}
    (hnd : idsNodup st) (hmem : j ∈ st.jobs) (hstat : j.status ≠ .failed)
    (hdlq : dlqInv st) :
    dlqInv ⟨updateById st.jobs j.id f, st.dlq⟩ := by
  intro e he
  obtain ⟨m, hm, hmid, hmfail, hmtr, hmpl⟩ := hdlq e he
  have hne : m.id ≠ j.id := by
    intro hh
    have hmj : m = j := nodup_id_inj hnd hm hmem hh
    rw [hmj] at hmfail
    exact hstat hmfail
  exact ⟨m, mem_updateById_of_ne hm hne, hmid, hmfail, hmtr, hmpl⟩

theorem retryCountInv_updateById {st : Store} {i : String} {f : Job → Job}
    {d : List DLQEntry} (hrc : retryCountInv st)
    (hf : ∀ x ∈ st.jobs, x.id = i →
      (f x).retryCount ≤ (f x).maxRetries) :
    retryCountInv ⟨updateById st.jobs i f, d⟩ := by
  intro y hy
  obtain ⟨x, hx, hxy⟩ := mem_updateById hy
  by_cases h : x.id = i
  · rw [hxy, if_pos (by simp [h])]
    exact hf x hx h
  · rw [hxy, if_neg (by simp [h])]
    exact hrc x hx

theorem storeInv_step {s s' : Store} (hinv : storeInv s) (hstep : Step s s') :
    storeInv s' := by
  obtain ⟨hnd, hrc, hdlq⟩ := hinv
  cases hstep with
  | submit tid p key id traceId now hfresh =>
      rcases hdup : dupLookup s.jobs key with _ | existing
      · simp only [submitJob, hdup]
        refine ⟨?_, ?_, ?_⟩
        · show ((s.jobs ++ [newJob tid p key id traceId now]).map Job.id).Nodup
          rw [List.map_append, List.nodup_append]
          refine ⟨hnd, by simp, ?_⟩
          intro a ha hb
          simp only [List.map_cons, List.map_nil, List.mem_singleton, newJob] at hb
          rcases List.mem_map.mp ha with ⟨x, hx, hxa⟩
          exact hfresh x hx (hxa.trans hb)
        · intro y hy
          rcases List.mem_append.mp hy with hy | hy
          · exact hrc y hy
          · rcases List.mem_singleton.mp hy with rfl
            show (0 : Nat) ≤ 3
            decide
        · intro e he
          obtain ⟨m, hm, hrest⟩ := hdlq e he
          exact ⟨m, List.mem_append_left _ hm, hrest⟩
      · simp only [submitJob, hdup]
        exact ⟨hnd, hrc, hdlq⟩
  | lease now wid =>
      rcases hsel : findFirstByCreatedAt (s.jobs.filter (leaseEligible now))
        with _ | sel
      · simpa [acquireLease, hsel] using (⟨hnd, hrc, hdlq⟩ : storeInv s)
      · obtain ⟨hselmem, _⟩ := findFirstByCreatedAt_spec hsel
        have hselin : sel ∈ s.jobs := (List.mem_filter.mp hselmem).1
        have hselel : leaseEligible now sel = true := (List.mem_filter.mp hselmem).2
        have hselnf : sel.status ≠ .failed := by
          intro hh
          rw [leaseEligible, hh] at hselel
          simp at hselel
        simp only [acquireLease, hsel]
        refine ⟨?_, ?_, ?_⟩
        · exact idsNodup_updateById (fun x => rfl) hnd
        · exact retryCountInv_updateById hrc
            (fun x hx _ => hrc x hx)
        · exact dlqInv_updateById hnd hselin hselnf hdlq
  | ack j now hmem hrun =>
      refine ⟨?_, ?_, ?_⟩
      · exact idsNodup_updateById (fun x => rfl) hnd
      · exact retryCountInv_updateById hrc (fun x hx _ => hrc x hx)
      · exact dlqInv_updateById hnd hmem (by rw [hrun]; decide) hdlq
  | fail j errMsg now dlqId hmem hrun =>
      by_cases hge : j.maxRetries ≤ j.retryCount
      · simp only [retryJob, if_pos hge, moveToDeadLetterQueue]
        refine ⟨?_, ?_, ?_⟩
        · exact idsNodup_updateById (fun x => rfl) hnd
        · exact retryCountInv_updateById hrc (fun x hx _ => hrc x hx)
        · intro e he
          rcases List.mem_append.mp he with he | he
          · exact dlqInv_updateById hnd hmem (by rw [hrun]; decide) hdlq e he
          · rcases List.mem_singleton.mp he with rfl
            refine ⟨_, mem_updateById_self hmem, rfl, rfl, rfl, rfl⟩
      · simp only [retryJob, if_neg hge]
        refine ⟨?_, ?_, ?_⟩
        · exact idsNodup_updateById (fun x => rfl) hnd
        · refine retryCountInv_updateById hrc ?_
          intro x hx hxid
          have hxj : x = j := nodup_id_inj hnd hx hmem hxid
          show j.retryCount + 1 ≤ x.maxRetries
          rw [hxj]
          exact Nat.succ_le_of_lt (Nat.lt_of_not_le hge)
        · exact dlqInv_updateById hnd hmem (by rw [hrun]; decide) hdlq

/-- The empty store satisfies the invariants. -/
theorem storeInv_empty : storeInv ⟨[], []⟩ := by
  refine ⟨by simp [idsNodup], ?_, ?_⟩ <;> intro x hx <;> cases hx

/-- The invariants hold in every store reachable from the empty store. -/
theorem storeInv_reachable {s : Store}
    (h : Relation.ReflTransGen Step ⟨[], []⟩ s) : storeInv s := by
  induction h with
  | refl => exact storeInv_empty
  | tail _ hstep ih => exact storeInv_step ih hstep

theorem getBucket_setBucket (m : StatusCounts) (s s' : JobStatus) (n : Nat) :
    getBucket (setBucket m s n) s' = if s = s' then n else getBucket m s' := by
  cases s <;> cases s' <;> simp [setBucket, getBucket]

theorem getBucket_foldl_not_mem {gs : List (JobStatus × Nat)} {s : JobStatus}
    (hs : s ∉ gs.map Prod.fst) (m : StatusCounts) :
    getBucket (gs.foldl (fun acc g => setBucket acc g.1 g.2) m) s =
      getBucket m s := by
  induction gs generalizing m with
  | nil => rfl
  | cons g rest ih =>
      simp only [List.map_cons, List.mem_cons] at hs
      push_neg at hs
      rw [List.foldl_cons, ih hs.2, getBucket_setBucket,
        if_neg (fun hh => hs.1 hh.symm)]

theorem getBucket_foldl_mem {gs : List (JobStatus × Nat)} {s : JobStatus}
    {n : Nat} (hnd : (gs.map Prod.fst).Nodup) (hmem : (s, n) ∈ gs)
    (m : StatusCounts) :
    getBucket (gs.foldl (fun acc g => setBucket acc g.1 g.2) m) s = n := by
  induction gs generalizing m with
  | nil => cases hmem
  | cons g rest ih =>
      rw [List.map_cons, List.nodup_cons] at hnd
      rcases List.mem_cons.mp hmem with hg | hg
      · rw [← hg] at hnd ⊢
        rw [List.foldl_cons, getBucket_foldl_not_mem hnd.1,
          getBucket_setBucket, if_pos rfl]
      · rw [List.foldl_cons]
        exact ih hnd.2 hg _

theorem fst_groupByStatus (jobs : List Job) :
    (groupByStatus jobs).map Prod.fst = (jobs.map Job.status).dedup := by
  simp only [groupByStatus, List.map_map]
  exact List.map_id _

theorem getBucket_groupByStatus (jobs : List Job) (s : JobStatus) :
    getBucket ((groupByStatus jobs).foldl
        (fun acc g => setBucket acc g.1 g.2) zeroCounts) s =
      (jobs.filter (fun j => j.status == s)).length := by
  by_cases hs : s ∈ (jobs.map Job.status).dedup
  · have hnd : ((groupByStatus jobs).map Prod.fst).Nodup := by
      rw [fst_groupByStatus]
      exact List.nodup_dedup _
    have hmem : (s, (jobs.filter (fun j => j.status == s)).length) ∈
        groupByStatus jobs := by
      exact List.mem_map_of_mem _ hs
    exact getBucket_foldl_mem hnd hmem _
  · rw [getBucket_foldl_not_mem (by rwa [fst_groupByStatus]) _]
    have hnone : jobs.filter (fun j => j.status == s) = [] := by
      rw [List.filter_eq_nil_iff]
      intro j hj hjs
      exact hs (List.mem_dedup.mpr (List.mem_map.mpr
        ⟨j, hj, by simpa using hjs⟩))
    rw [hnone]
    cases s <;> rfl

theorem mem_zRemRangeByScore {entries : List (Nat × String)} {c : Int}
    {x : Nat × String} :
    x ∈ zRemRangeByScore entries c ↔ x ∈ entries ∧ c < (x.1 : Int) := by
  simp [zRemRangeByScore]

theorem zAdd_of_fresh {entries : List (Nat × String)} {s : Nat} {v : String}
    (h : ∀ x ∈ entries, x.2 ≠ v) :
    zAdd entries s v = entries ++ [(s, v)] := by
  rw [zAdd, if_neg]
  simp only [List.any_eq_true, not_exists, not_and]
  intro x hx
  simpa using h x hx

/-! ## Claim theorems -/

/-- C1, counterexample: the route runs the admission gates before the
idempotency lookup, so a second submit with an existing idempotency key is
not free of admission effects. With the job of key k present and an empty
rate window, the duplicate call returns the existing job but consumes one
rate-window token (the window grows from zero to one entries); with a full
rate window, the duplicate call is denied with 429 instead of returning the
existing job. -/
theorem duplicate_submit_consumes_token_and_can_be_denied :
    (handleSubmit ⟨[newJob "t" (.jstr "x") (some "k") "j1" "tr1" 50], []⟩
        ⟨[], none⟩ ⟨some "t", some (.jstr "x"), some "k"⟩ 1000 "r" "j2" "tr2"
        true =
      (.created "j1" .pending "tr1",
       ⟨[newJob "t" (.jstr "x") (some "k") "j1" "tr1" 50], []⟩,
       ⟨[(1000, "1000-r")], some 60⟩)) ∧
    ((handleSubmit ⟨[newJob "t" (.jstr "x") (some "k") "j1" "tr1" 50], []⟩
        ⟨(List.range 10).map (fun i => (990, toString i)), some 60⟩
        ⟨some "t", some (.jstr "x"), some "k"⟩ 1000 "r" "j2" "tr2" true).1 =
      .rateLimited) := by
  constructor
  · rfl
  · rfl

/-- C3: on the failing input of a leased running job, the acknowledgement
update writes only status and completed_at, leaving worker_id and
lease_expires_at set on the completed row, and the dead-letter transition
likewise leaves both set on the failed row — the code violates the
lease-field invariant claimed for completed and failed jobs. -/
theorem ack_and_deadletter_leave_lease_fields_set :
    (let j : Job := { newJob "A" (.jstr "x") none "j1" "tr1" 50 with
        status := .running, workerId := some "w1", leaseExpiresAt := some 500,
        startedAt := some 60 }
     (acknowledgeJob ⟨[j], []⟩ "j1" 900).jobs.all
       (fun x => x.status == .completed && x.workerId == some "w1" &&
         x.leaseExpiresAt == some 500) = true) ∧
    (let j : Job := { newJob "A" (.jstr "x") none "j1" "tr1" 50 with
        status := .running, workerId := some "w1", leaseExpiresAt := some 500,
        startedAt := some 60, retryCount := 3 }
     (retryJob ⟨[j], []⟩ j "boom" 900 "d1").jobs.all
       (fun x => x.status == .failed && x.workerId == some "w1" &&
         x.leaseExpiresAt == some 500) = true) := by
  constructor
  · rfl
  · rfl

/-- C6, counterexample: a job returned to pending by a retry already has
started_at set (here to 100); when it is leased again the update overwrites
started_at with the new lease time 200 because the source keys the
assignment on the snapshot's status being pending, not on started_at being
null. -/
theorem lease_of_retried_pending_overwrites_startedAt :
    (let j : Job := { newJob "A" (.jstr "x") none "j1" "tr1" 50 with
        retryCount := 1, startedAt := some 100 }
     ((acquireLease ⟨[j], []⟩ 200 "w2").1.map Job.startedAt) = some (some 200)) ∧
    ({ newJob "A" (.jstr "x") none "j1" "tr1" 50 with
        retryCount := 1, startedAt := some 100 }.startedAt = some 100) := by
  constructor
  · rfl
  · rfl

/-- C7, counterexample: the source's eviction range is inclusive of
now - 60000, the claim's wording is strict. With ten window entries scored
exactly now - 60000, the source evicts all ten and allows, while the
claim's algorithm keeps all ten and denies. -/
theorem rate_eviction_boundary_differs :
    (checkRateLimit ⟨(List.range 10).map (fun i => (0, toString i)), some 60⟩
      60000 "r").1 = true ∧
    (checkRateLimitClaimed
      ⟨(List.range 10).map (fun i => (0, toString i)), some 60⟩
      60000 "r").1 = false := by
  constructor
  · rfl
  · rfl

/-- C9, counterexample: a request with non-empty tenantId and a payload
that is present but falsy under JavaScript truthiness (here the number 0)
is rejected with InvalidArgument, although the claim says any present
payload proceeds past validation. -/
theorem falsy_payload_rejected :
    (handleSubmit ⟨[], []⟩ ⟨[], none⟩ ⟨some "t", some (.jnum 0), none⟩
      5 "r" "j1" "tr1" true).1 = .invalidArgument ∧
    truthyTenant (some "t") = true ∧
    (some (JsonVal.jnum 0)).isSome = true := by
  exact ⟨rfl, rfl, rfl⟩

/-- C2: when acquireLease claims a job, the claimed row was eligible
(pending, or running with an expired lease), had the smallest created_at
among all eligible rows, and is updated to running with the acquiring
worker, a lease expiring now + 5 minutes, and an unchanged retry count (a
steal-back is not counted as a retry); the store is updated at exactly that
row and the dead-letter table is untouched. The eligibility predicate has
no created_at bound, so a pending job whose created_at lies in the future
is eligible immediately. -/
theorem acquireLease_fifo_update (st : Store) (now : Nat) (wid : String)
    (j' : Job) (st' : Store)
    (h : acquireLease st now wid = (some j', st')) :
    (∃ sel ∈ st.jobs,
      leaseEligible now sel = true ∧
      (∀ k ∈ st.jobs, leaseEligible now k = true →
        sel.createdAt ≤ k.createdAt) ∧
      j'.id = sel.id ∧ j'.status = .running ∧ j'.workerId = some wid ∧
      j'.leaseExpiresAt = some (now + 5 * 60 * 1000) ∧
      j'.retryCount = sel.retryCount ∧
      st'.jobs = updateById st.jobs sel.id (leaseTransform sel now wid) ∧
      st'.dlq = st.dlq) ∧
    (∀ k : Job, k.status = .pending → leaseEligible now k = true) := by
  obtain ⟨sel, hsel, hj', hst'⟩ := acquireLease_some h
  obtain ⟨hmemf, hminf⟩ := findFirstByCreatedAt_spec hsel
  have hin := List.mem_filter.mp hmemf
  subst hj'
  subst hst'
  refine ⟨⟨sel, hin.1, hin.2, ?_, rfl, rfl, rfl, rfl, rfl, rfl, rfl⟩, ?_⟩
  · intro k hk hek
    exact hminf k (List.mem_filter.mpr ⟨hk, hek⟩)
  · intro k hk
    simp [leaseEligible, hk]

/-- C2, witness: a store holding one pending job whose created_at 999999
lies far in the future of the lease time 200; the job is claimed all the
same. -/
theorem acquireLease_fifo_update_witness :
    (∃ sel ∈ (⟨[wPending], []⟩ : Store).jobs,
      leaseEligible 200 sel = true ∧
      (∀ k ∈ (⟨[wPending], []⟩ : Store).jobs, leaseEligible 200 k = true →
        sel.createdAt ≤ k.createdAt) ∧
      (leaseTransform wPending 200 "w1" wPending).id = sel.id ∧
      (leaseTransform wPending 200 "w1" wPending).status = .running ∧
      (leaseTransform wPending 200 "w1" wPending).workerId = some "w1" ∧
      (leaseTransform wPending 200 "w1" wPending).leaseExpiresAt =
        some (200 + 5 * 60 * 1000) ∧
      (leaseTransform wPending 200 "w1" wPending).retryCount = sel.retryCount ∧
      (⟨[leaseTransform wPending 200 "w1" wPending], []⟩ : Store).jobs =
        updateById (⟨[wPending], []⟩ : Store).jobs sel.id
          (leaseTransform sel 200 "w1") ∧
      (⟨[leaseTransform wPending 200 "w1" wPending], []⟩ : Store).dlq =
        (⟨[wPending], []⟩ : Store).dlq) ∧
    (∀ k : Job, k.status = .pending → leaseEligible 200 k = true) :=
  acquireLease_fifo_update ⟨[wPending], []⟩ 200 "w1"
    (leaseTransform wPending 200 "w1" wPending)
    ⟨[leaseTransform wPending 200 "w1" wPending], []⟩ rfl

/-- C6, amended: the lease update assigns started_at := now exactly when
the claimed row's status was pending (a first dispatch, but also a re-lease
after a retry, overwriting the earlier value), and preserves started_at
exactly when the row was running with an expired lease (steal-back). -/
theorem lease_startedAt_policy (st : Store) (now : Nat) (wid : String)
    (j' : Job) (st' : Store)
    (h : acquireLease st now wid = (some j', st')) :
    ∃ sel ∈ st.jobs, leaseEligible now sel = true ∧
      (sel.status = .pending → j'.startedAt = some now) ∧
      (sel.status = .running → j'.startedAt = sel.startedAt) := by
  obtain ⟨sel, hsel, hj', _⟩ := acquireLease_some h
  obtain ⟨hmemf, _⟩ := findFirstByCreatedAt_spec hsel
  have hin := List.mem_filter.mp hmemf
  subst hj'
  refine ⟨sel, hin.1, hin.2, ?_, ?_⟩
  · intro hp
    simp [leaseTransform, hp]
  · intro hr
    simp [leaseTransform, hr]

/-- C6, amended, witness: steal-back of the expired lease of wRun at time
900 preserves its original started_at. -/
theorem lease_startedAt_policy_witness :
    ∃ sel ∈ (⟨[wRun], []⟩ : Store).jobs, leaseEligible 900 sel = true ∧
      (sel.status = .pending →
        (leaseTransform wRun 900 "w2" wRun).startedAt = some 900) ∧
      (sel.status = .running →
        (leaseTransform wRun 900 "w2" wRun).startedAt = sel.startedAt) :=
  lease_startedAt_policy ⟨[wRun], []⟩ 900 "w2"
    (leaseTransform wRun 900 "w2" wRun)
    ⟨[leaseTransform wRun 900 "w2" wRun], []⟩ rfl

/-- C4: a failure of a job with retry_count < max_retries updates the row
to pending with the retry count incremented, lease fields cleared, the
error message recorded and created_at rewritten to now plus the backoff
min(30000 * 2^retry_count, 600000); no dead-letter entry is written, the
incremented count still respects the budget, and the budget invariant
retry_count ≤ max_retries holds in every store reachable from the empty
store. -/
theorem retry_postcondition (st : Store) (j : Job) (err : String)
    (now : Nat) (did : String) (hmem : j ∈ st.jobs) (hnd : idsNodup st)
    (hlt : j.retryCount < j.maxRetries) :
    findJob (retryJob st j err now did) j.id =
      some
        { j with
          status := .pending, retryCount := j.retryCount + 1,
          workerId := none, leaseExpiresAt := none,
          errorMessage := some err,
          createdAt := now + min (30000 * 2 ^ j.retryCount) 600000 } ∧
    (retryJob st j err now did).dlq = st.dlq ∧
    j.retryCount + 1 ≤ j.maxRetries ∧
    (∀ s', Relation.ReflTransGen Step ⟨[], []⟩ s' →
      ∀ x ∈ s'.jobs, x.retryCount ≤ x.maxRetries) := by
  have hnot : ¬ j.maxRetries ≤ j.retryCount := Nat.not_le.mpr hlt
  simp only [retryJob, if_neg hnot]
  refine ⟨?_, by trivial, Nat.succ_le_of_lt hlt, ?_⟩
  · exact find_updateById hnd hmem (fun x => rfl)
  · intro s' hs' x hx
    exact (storeInv_reachable hs').2.1 x hx

/-- C4, witness: the running job wRun (retry count 0 of 3) fails at time
1000; it returns to pending with retry count 1 and created_at 1000 + 30000.
-/
theorem retry_postcondition_witness :
    (0 : Nat) < 3 ∧
    (findJob (retryJob ⟨[wRun], []⟩ wRun "boom" 1000 "d1") wRun.id =
      some
        { wRun with
          status := .pending, retryCount := wRun.retryCount + 1,
          workerId := none, leaseExpiresAt := none,
          errorMessage := some "boom",
          createdAt := 1000 + min (30000 * 2 ^ wRun.retryCount) 600000 } ∧
    (retryJob ⟨[wRun], []⟩ wRun "boom" 1000 "d1").dlq = [] ∧
    wRun.retryCount + 1 ≤ wRun.maxRetries ∧
    (∀ s', Relation.ReflTransGen Step ⟨[], []⟩ s' →
      ∀ x ∈ s'.jobs, x.retryCount ≤ x.maxRetries)) :=
  ⟨by decide,
   retry_postcondition ⟨[wRun], []⟩ wRun "boom" 1000 "d1" (by decide)
     (by simp [idsNodup]) (by decide)⟩

/-- C5: under the budget invariant retry_count ≤ max_retries, a failure
writes a dead-letter entry exactly when retry_count = max_retries; in that
case the transaction appends the entry with the job's id, its payload
snapshot, the final error, the failure time and the job's trace id, and
sets the job row to failed with the error message; and in every store
reachable from the empty store, every dead-letter entry has a parent job
row with status failed, the same trace id and the payload preserved. -/
theorem deadletter_policy (st : Store) (j : Job) (err : String)
    (now : Nat) (did : String) (hmem : j ∈ st.jobs) (hnd : idsNodup st)
    (hle : j.retryCount ≤ j.maxRetries) :
    ((retryJob st j err now did).dlq ≠ st.dlq ↔
      j.retryCount = j.maxRetries) ∧
    (j.retryCount = j.maxRetries →
      (retryJob st j err now did).dlq = st.dlq ++
        [{ id := did, jobId := j.id, payload := j.payload, finalError := err,
           failedAt := now, traceId := j.traceId }] ∧
      findJob (retryJob st j err now did) j.id =
        some { j with status := .failed, errorMessage := some err }) ∧
    (∀ s', Relation.ReflTransGen Step ⟨[], []⟩ s' → dlqInv s') := by
  refine ⟨?_, ?_, ?_⟩
  · by_cases heq : j.retryCount = j.maxRetries
    · have hge : j.maxRetries ≤ j.retryCount := le_of_eq heq.symm
      simp only [retryJob, if_pos hge, moveToDeadLetterQueue]
      constructor
      · intro _
        exact heq
      · intro _ hcontra
        have := congrArg List.length hcontra
        simp at this
    · have hlt : j.retryCount < j.maxRetries := lt_of_le_of_ne hle heq
      have hnot : ¬ j.maxRetries ≤ j.retryCount := Nat.not_le.mpr hlt
      simp only [retryJob, if_neg hnot]
      simp [heq]
  · intro heq
    have hge : j.maxRetries ≤ j.retryCount := le_of_eq heq.symm
    simp only [retryJob, if_pos hge]
    exact ⟨rfl, find_updateById hnd hmem (fun x => rfl)⟩
  · intro s' hs'
    exact (storeInv_reachable hs').2.2

/-- C5, witness: the running job wRunMax (retry count 3 = max_retries 3)
fails at time 900; the dead-letter entry is written and the row turns
failed. -/
theorem deadletter_policy_witness :
    wRunMax.retryCount = wRunMax.maxRetries ∧
    ((retryJob ⟨[wRunMax], []⟩ wRunMax "boom" 900 "d1").dlq = [] ++
        [{ id := "d1", jobId := wRunMax.id, payload := wRunMax.payload,
           finalError := "boom", failedAt := 900,
           traceId := wRunMax.traceId }] ∧
      findJob (retryJob ⟨[wRunMax], []⟩ wRunMax "boom" 900 "d1") wRunMax.id =
        some { wRunMax with status := .failed, errorMessage := some "boom" }) :=
  ⟨by decide,
   (deadletter_policy ⟨[wRunMax], []⟩ wRunMax "boom" 900 "d1" (by decide)
     (by simp [idsNodup]) (by decide)).2.1 (by decide)⟩

/-- C7, amended: the rate gate first evicts the window entries with score
less than or equal to now - 60000 (the removal range is inclusive of its
upper bound), denies exactly when at least 10 entries remain, otherwise —
when the fresh member is not already present — appends one entry scored
now and refreshes the TTL to 60 seconds; and an error from the keyed store
yields allow (fail open) instead of propagating. -/
theorem rate_gate_behavior (k : RateKey) (now : Nat) (rand : String) :
    ((checkRateLimit k now rand).1 = false ↔
      10 ≤ (zRemRangeByScore k.entries ((now : Int) - 60000)).length) ∧
    (∀ x, x ∈ zRemRangeByScore k.entries ((now : Int) - 60000) ↔
      x ∈ k.entries ∧ (now : Int) - 60000 < (x.1 : Int)) ∧
    ((zRemRangeByScore k.entries ((now : Int) - 60000)).length < 10 →
      (∀ x ∈ k.entries, x.2 ≠ rateMember now rand) →
      (checkRateLimit k now rand).2 =
        ⟨zRemRangeByScore k.entries ((now : Int) - 60000) ++
          [(now, rateMember now rand)], some 60⟩) ∧
    (∀ ko : RateKey, checkRateLimitSafe false ko now rand = (true, ko)) := by
  refine ⟨?_, fun x => mem_zRemRangeByScore, ?_, fun ko => rfl⟩
  · by_cases h : 10 ≤ (zRemRangeByScore k.entries ((now : Int) - 60000)).length
    · simp [checkRateLimit, if_pos h, h]
    · simp [checkRateLimit, if_neg h, h]
  · intro hlen hfresh
    have hnot : ¬ 10 ≤ (zRemRangeByScore k.entries ((now : Int) - 60000)).length :=
      Nat.not_le.mpr hlen
    simp only [checkRateLimit, if_neg hnot]
    rw [zAdd_of_fresh (fun x hx => hfresh x (mem_zRemRangeByScore.mp hx).1)]

/-- C7, amended, witness: a window with one stale entry at time 70000; the
entry is evicted and the call allows, appending the member scored 70000 and
setting the TTL to 60. -/
theorem rate_gate_behavior_witness :
    ((zRemRangeByScore ([(100, "a")] : List (Nat × String))
        ((70000 : Int) - 60000)).length < 10) ∧
    (checkRateLimit ⟨[(100, "a")], none⟩ 70000 "r").2 =
      ⟨[(70000, rateMember 70000 "r")], some 60⟩ :=
  ⟨by decide,
   (rate_gate_behavior ⟨[(100, "a")], none⟩ 70000 "r").2.2.1 (by decide)
     (by decide)⟩

/-- C10: on the deny path (at least 10 entries remain after eviction) the
rate gate returns deny, leaves the TTL untouched and inserts nothing: the
resulting window consists exactly of the surviving original entries, so a
denied attempt consumes no slot in the tenant's window. -/
theorem rate_deny_no_mutation (k : RateKey) (now : Nat) (rand : String)
    (h : 10 ≤ (zRemRangeByScore k.entries ((now : Int) - 60000)).length) :
    (checkRateLimit k now rand).1 = false ∧
    (checkRateLimit k now rand).2.ttl = k.ttl ∧
    (∀ x, x ∈ (checkRateLimit k now rand).2.entries ↔
      (x ∈ k.entries ∧ (now : Int) - 60000 < (x.1 : Int))) := by
  simp only [checkRateLimit, if_pos h]
  exact ⟨by trivial, by trivial, fun x => mem_zRemRangeByScore⟩

/-- C10, witness: ten recent entries at time 1000 survive eviction; the
call denies, keeps the TTL and keeps exactly the ten entries. -/
theorem rate_deny_no_mutation_witness :
    (10 ≤ (zRemRangeByScore ((List.range 10).map (fun i => (990, toString i)))
        ((1000 : Int) - 60000)).length) ∧
    (checkRateLimit ⟨(List.range 10).map (fun i => (990, toString i)), some 7⟩
        1000 "r").1 = false ∧
    (checkRateLimit ⟨(List.range 10).map (fun i => (990, toString i)), some 7⟩
        1000 "r").2.ttl = some 7 :=
  ⟨by decide,
   (rate_deny_no_mutation ⟨(List.range 10).map (fun i => (990, toString i)),
      some 7⟩ 1000 "r" (by decide)).1,
   (rate_deny_no_mutation ⟨(List.range 10).map (fun i => (990, toString i)),
      some 7⟩ 1000 "r" (by decide)).2.1⟩

/-- C8: with a tenant given, getMetrics reports the tenant's total row
count, a per-status record whose four buckets each hold the number of the
tenant's rows with that status (0 when the status is absent from the
group-by result), and a dead-letter size counting exactly the entries
whose parent job row belongs to the tenant. -/
theorem metrics_scoped (st : Store) (t : String) :
    (getMetrics st (some t)).jobs_total =
      (st.jobs.filter (fun j => j.tenantId == t)).length ∧
    (∀ s : JobStatus, getBucket (getMetrics st (some t)).jobs_by_status s =
      ((st.jobs.filter (fun j => j.tenantId == t)).filter
        (fun j => j.status == s)).length) ∧
    (getMetrics st (some t)).dlq_size =
      (st.dlq.filter (fun e =>
        decide (∃ j ∈ st.jobs, j.id = e.jobId ∧ j.tenantId = t))).length := by
  refine ⟨rfl, ?_, ?_⟩
  · intro s
    exact getBucket_groupByStatus _ s
  · show (st.dlq.filter (fun e =>
        st.jobs.any (fun j => j.id == e.jobId && j.tenantId == t))).length = _
    congr 1
    apply List.filter_congr
    intro e _
    rw [Bool.eq_iff_iff]
    simp [List.any_eq_true]

/-- C1, amended: when a job already exists under the idempotency key and
the admission gates pass (rate gate allows, running count below 5, Redis
reachable), the duplicate submit returns the existing job — same jobId and
the original traceId — and leaves the jobs table unchanged, so exactly one
row with the key remains; but because the gates run before the idempotency
lookup, the duplicate call consumes one rate-window token: the resulting
window is the evicted window plus one entry scored now. -/
theorem duplicate_submit_after_gates (st : Store) (k : RateKey)
    (tid : String) (p : JsonVal) (key : String) (e : Job) (now : Nat)
    (rand newId newTraceId : String)
    (htid : tid ≠ "") (hp : p.truthy = true)
    (hfind : findByIdempotencyKey st.jobs key = some e)
    (hrate : (checkRateLimit k now rand).1 = true)
    (hconc : getRunningJobCount st tid < 5)
    (hfresh : ∀ x ∈ k.entries, x.2 ≠ rateMember now rand) :
    handleSubmit st k ⟨some tid, some p, some key⟩ now rand newId newTraceId
        true =
      (.created e.id e.status e.traceId, st, (checkRateLimit k now rand).2) ∧
    (checkRateLimit k now rand).2.entries =
      zRemRangeByScore k.entries ((now : Int) - 60000) ++
        [(now, rateMember now rand)] := by
  have hlen : ¬ 10 ≤ (zRemRangeByScore k.entries ((now : Int) - 60000)).length := by
    intro hh
    simp only [checkRateLimit, if_pos hh] at hrate
    cases hrate
  constructor
  · have h1 : truthyTenant (some tid) = true := by
      simp [truthyTenant, htid]
    have h2 : truthyPayload (some p) = true := by
      simpa [truthyPayload] using hp
    have h3 : checkConcurrentLimit (getRunningJobCount st tid) = true := by
      simp [checkConcurrentLimit, Nat.not_le.mpr hconc]
    have h4 : submitJob st tid p (some key) newId newTraceId now = (e, st) := by
      simp [submitJob, dupLookup, hfind]
    simp [handleSubmit, h1, h2, h3, h4, checkRateLimitSafe, hrate]
  · simp only [checkRateLimit, if_neg hlen]
    exact zAdd_of_fresh (fun x hx => hfresh x (mem_zRemRangeByScore.mp hx).1)

/-- C1, amended, witness: the existing job wDup under key k, an empty rate
window, no running jobs; the duplicate submit at time 1000 returns wDup's
id and original trace id, leaves the store unchanged and adds one token to
the window. -/
theorem duplicate_submit_after_gates_witness :
    (handleSubmit ⟨[wDup], []⟩ ⟨[], none⟩ ⟨some "t", some (.jstr "x"), some "k"⟩
        1000 "r" "j2" "tr2" true =
      (.created wDup.id wDup.status wDup.traceId, ⟨[wDup], []⟩,
        (checkRateLimit ⟨[], none⟩ 1000 "r").2)) ∧
    (checkRateLimit ⟨[], none⟩ 1000 "r").2.entries =
      zRemRangeByScore ([] : List (Nat × String)) ((1000 : Int) - 60000) ++
        [(1000, rateMember 1000 "r")] :=
  duplicate_submit_after_gates ⟨[wDup], []⟩ ⟨[], none⟩ "t" (.jstr "x") "k"
    wDup 1000 "r" "j2" "tr2" (by decide) (by decide) (by decide) (by decide)
    (by decide) (by decide)

/-- C9, amended: the submit route rejects with InvalidArgument exactly when
the tenantId field is missing or empty, or the payload field is missing or
a falsy JSON value (null, false, 0 or the empty string); any request with
non-empty tenantId and truthy payload passes validation and reaches the
admission checks. -/
theorem submit_validation (st : Store) (k : RateKey) (req : SubmitRequest)
    (now : Nat) (rand newId newTraceId : String) (redisOk : Bool) :
    ((handleSubmit st k req now rand newId newTraceId redisOk).1 =
        .invalidArgument ↔
      (truthyTenant req.tenantId = false ∨
        truthyPayload req.payload = false)) ∧
    (truthyTenant req.tenantId = false ↔
      (req.tenantId = none ∨ req.tenantId = some "")) ∧
    (truthyPayload req.payload = false ↔
      (req.payload = none ∨
        ∃ v, req.payload = some v ∧ v.truthy = false)) := by
  refine ⟨?_, ?_, ?_⟩
  · constructor
    · intro hcontra
      by_contra hneg
      push_neg at hneg
      have h1 : truthyTenant req.tenantId = true := by
        cases h : truthyTenant req.tenantId
        · exact absurd h hneg.1
        · rfl
      have h2 : truthyPayload req.payload = true := by
        cases h : truthyPayload req.payload
        · exact absurd h hneg.2
        · rfl
      simp only [handleSubmit, h1, h2] at hcontra
      revert hcontra
      split_ifs <;> simp_all
    · intro h
      rcases h with h | h <;> simp [handleSubmit, h]
  · cases hten : req.tenantId with
    | none => simp [truthyTenant]
    | some s =>
        simp only [truthyTenant, Option.some.injEq]
        constructor
        · intro hh
          right
          simpa using hh
        · intro hh
          rcases hh with hh | hh
          · cases hh
          · simp [hh]
  · cases hpay : req.payload with
    | none => simp [truthyPayload]
    | some v =>
        simp only [truthyPayload, Option.some.injEq]
        constructor
        · intro hh
          exact Or.inr ⟨v, rfl, hh⟩
        · intro hh
          rcases hh with hh | ⟨v', hv', hf⟩
          · cases hh
          · cases hv'
            exact hf

end TaskQueue
